import Mathlib

/-!
Verification development for the message-intake HTTP service in
`src/server.js`.  The JavaScript source is shallowly embedded: the
in-memory message store (`messageStore`), the sanitizer
(`sanitizeInput`), the basic-auth gate (`messageAuth`) and the route
handlers are translated into pure Lean functions; the nondeterministic
parts of a record (its timestamp and id, produced in JS by `Date` and
`Math.random`) are passed in as explicit arguments, and JS in-place
mutation of shared arrays and records is modelled by a small explicit
heap where it matters.
-/

namespace FunctionServer

/-- A stored message record, as built by `messageStore.addMessage`
(server.js lines 24-28): a timestamp string, the content string, and an
id string. -/
structure MessageRecord where
  timestamp : String
  content : String
  id : String
deriving DecidableEq, Repr

/-- Embeds `const MAX_MESSAGES = 20` (server.js line 19). -/
def MAX_MESSAGES : Nat := 20

/-- Embeds `messageStore.addMessage` (server.js lines 22-38): build the
record from the supplied timestamp and id, drop the oldest record
(`this.messages.shift()`) when the store is at capacity, then append the
new record (`this.messages.push(...)`).  Returns the new store contents
and the created record. -/
def addMessage (msgs : List MessageRecord) (ts idv content : String) :
    List MessageRecord × MessageRecord :=
  let m : MessageRecord := ⟨ts, content, idv⟩
  let msgs1 := if MAX_MESSAGES ≤ msgs.length then msgs.tail else msgs
  (msgs1 ++ [m], m)

/-- Embeds `messageStore.getAllMessages` (server.js lines 39-41), which
returns `[...this.messages]`; at the level of list values the copy is
equal to the store contents (the sharing aspects are modelled separately
by the heap model below). -/
def getAllMessages (msgs : List MessageRecord) : List MessageRecord :=
  msgs

/-- Embeds the state effect of `messageStore.clear` (server.js lines
42-45): `this.messages = []`. -/
def clearStore (_msgs : List MessageRecord) : List MessageRecord :=
  []

/-- The acknowledgment value returned by `messageStore.clear` (server.js
line 44): success flag and message text. -/
def clearResult : Bool × String :=
  (true, "Message store cleared")

/-- Embeds a single JS `input.replace(/c/g, repl)` call for a one-character
pattern `c`: every occurrence of `c` in the input is replaced by `repl`
in one left-to-right pass; the replacement text itself is not rescanned
by this same call. -/
def replaceChar (c : Char) (repl : List Char) : List Char → List Char
  | [] => []
  | x :: xs => (if x = c then repl else [x]) ++ replaceChar c repl xs

/-- Embeds the string branch of `sanitizeInput` (server.js lines
95-108): six chained `.replace` calls, in source order, each pass
rescanning the output of the previous one. -/
def sanitizeChars (s : List Char) : List Char :=
  replaceChar ';' ("&#59;".data)
    (replaceChar '$' ("&#36;".data)
      (replaceChar '\'' ("&#39;".data)
        (replaceChar '"' ("&quot;".data)
          (replaceChar '>' ("&gt;".data)
            (replaceChar '<' ("&lt;".data) s)))))

/-- String-level wrapper for `sanitizeInput` on string inputs (the
non-string branch, `JSON.stringify`, is outside the claims considered
here, which all concern string inputs). -/
def sanitizeInput (s : String) : String :=
  ⟨sanitizeChars s.data⟩

/-- Modelled from the spec: the Sanitizer as the spec describes it in
section 4.1 — a single pass over the original string in which each of
the six dangerous characters maps to its fixed escape sequence and every
other character is kept, with no re-scanning of already-substituted
output.  Used only to compare the spec's description with the source's
`sanitizeInput`. -/
def sanitizeSpecChar (c : Char) : List Char :=
  if c = '<' then "&lt;".data
  else if c = '>' then "&gt;".data
  else if c = '"' then "&quot;".data
  else if c = '\'' then "&#39;".data
  else if c = '$' then "&#36;".data
  else if c = ';' then "&#59;".data
  else [c]

/-- Modelled from the spec: single-pass sanitizer over the whole string
(see `sanitizeSpecChar`). -/
def sanitizeSpec (s : String) : String :=
  ⟨(s.data.map sanitizeSpecChar).flatten⟩

/-- Embeds the JS string-typed `a || b` idiom used at server.js lines
119 and 125 (`req.body.message || 'No message provided'`,
`req.headers[...] || req.connection.remoteAddress`): `none` models an
absent (`undefined`) field and the empty string is falsy, so both select
the default. -/
def jsOrString : Option String → String → String
  | none, dflt => dflt
  | some s, dflt => if s = "" then dflt else s

/-- The inbound-request data the handlers read: the basic-auth
credential pair decoded from the `Authorization` header (`none` when
absent), `req.body.message` (`none` when the field is absent), the
`x-forwarded-for` header, `req.connection.remoteAddress`, and whether
the `Accept` header includes `application/json`. -/
structure Request where
  cred : Option (String × String)
  bodyMessage : Option String
  xForwardedFor : Option String
  remoteAddress : String
  acceptJson : Bool
deriving DecidableEq, Repr

/-- The JSON or HTML payloads the routes produce. -/
inductive ResponseBody
  | statusMsg (status message : String)
  | successMsg (success : Bool) (message : String)
  | messagesJson (messages : List MessageRecord)
  | htmlView (count capacity : Nat) (items : List MessageRecord)
  | emptyBody
deriving DecidableEq, Repr

/-- An HTTP response: status code, the `WWW-Authenticate` basic
challenge realm when present, and the body. -/
structure Response where
  status : Nat
  challengeRealm : Option String
  body : ResponseBody
deriving DecidableEq, Repr

/-- Embeds the `messageAuth` gate (server.js lines 88-92): the
express-basic-auth middleware configured with the single user map
`admin : lifelink`; a request passes exactly when it carries that
credential pair. -/
def authUsers : List (String × String) :=
  [("admin", "lifelink")]

/-- Whether a supplied credential pair passes `messageAuth`; an absent
credential is denied. -/
def messageAuth (cred : Option (String × String)) : Bool :=
  match cred with
  | some (u, p) => authUsers.any fun q => q.1 = u && q.2 = p
  | none => false

/-- The 401 response express-basic-auth sends when `challenge: true`
with realm `Message Viewer` (server.js lines 90-91). -/
def unauthorizedResponse : Response :=
  ⟨401, some "Message Viewer", .emptyBody⟩

/-- Embeds the `POST /message` handler (server.js lines 116-152).  The
timestamp and id for the stored record are arguments; `err` is `none`
when the try block completes and `some e` when an internal failure with
message `e` is raised, in which case the catch block (lines 139-151)
runs.  Returns the new store contents, the entries appended to the
durable message log (`logMessage` calls), and the HTTP response. -/
def postMessage (msgs : List MessageRecord) (req : Request)
    (ts idv : String) (err : Option String) :
    List MessageRecord × List String × Response :=
  match err with
  | none =>
    let rawMessage := jsOrString req.bodyMessage "No message provided"
    let sanitizedMessage := sanitizeInput rawMessage
    let clientIp := jsOrString req.xForwardedFor req.remoteAddress
    let logEntry :=
      "IP: " ++ sanitizeInput clientIp ++ " | Message: " ++ sanitizedMessage
    ((addMessage msgs ts idv logEntry).1, [logEntry],
      ⟨200, none, .statusMsg "success" "Message received and logged"⟩)
  | some e =>
    let errorMsg := "ERROR: " ++ sanitizeInput e
    ((addMessage msgs ts idv errorMsg).1, [errorMsg],
      ⟨500, none, .statusMsg "error" "Failed to process message"⟩)

/-- Embeds the `GET /read_messages` handler (server.js lines 155-287):
auth gate first, then either the JSON list or the HTML view showing
count, capacity and the snapshot newest-first (`messages.reverse()`,
line 243). -/
def readMessagesRoute (msgs : List MessageRecord) (req : Request) :
    Response :=
  if messageAuth req.cred then
    let messages := getAllMessages msgs
    if req.acceptJson then ⟨200, none, .messagesJson messages⟩
    else ⟨200, none, .htmlView messages.length MAX_MESSAGES messages.reverse⟩
  else unauthorizedResponse

/-- Embeds the `POST /clear_messages` handler (server.js lines
290-302): auth gate, then `messageStore.clear()`, an admin log entry,
and the clear acknowledgment.  Returns new store contents, durable log
entries and the response. -/
def clearMessagesRoute (msgs : List MessageRecord) (req : Request) :
    List MessageRecord × List String × Response :=
  if messageAuth req.cred then
    (clearStore msgs, ["Message store cleared by admin"],
      ⟨200, none, .successMsg clearResult.1 clearResult.2⟩)
  else (msgs, [], unauthorizedResponse)

/-- A store operation, for stating invariants over arbitrary operation
sequences: an `add` (with its nondeterministically supplied timestamp
and id), a `list` snapshot, or a `clear`. -/
inductive StoreOp
  | add (ts idv content : String)
  | list
  | clear

/-- State effect of one store operation. -/
def applyOp (msgs : List MessageRecord) : StoreOp → List MessageRecord
  | .add ts idv c => (addMessage msgs ts idv c).1
  | .list => msgs
  | .clear => clearStore msgs

/-- Run a sequence of store operations from the empty store the process
starts with. -/
def runOps (ops : List StoreOp) : List MessageRecord :=
  ops.foldl applyOp []

/-- Run a sequence of `add` calls from the empty store, each element
supplying the record to insert (its timestamp, content and id are its
fields, matching what `addMessage` builds from its arguments). -/
def runAdds (rs : List MessageRecord) : List MessageRecord :=
  rs.foldl (fun msgs r => (addMessage msgs r.timestamp r.id r.content).1) []

/-- A small explicit heap, used to model the JS object graph behind
`getAllMessages`: record objects and array objects live at addresses
(`recs` and `arrays` are indexed by address), arrays hold record
addresses, and `storeArr` is the address of the store's internal
`messages` array.  JS in-place mutation becomes updating the heap cell
at an address. -/
structure World where
  recs : List MessageRecord
  arrays : List (List Nat)
  storeArr : Nat
deriving DecidableEq, Repr

/-- The records a `list()` caller observes through the store: the
store's array dereferenced element by element. -/
def listStore (w : World) : List (Option MessageRecord) :=
  (w.arrays.getD w.storeArr []).map fun a => w.recs[a]?

/-- Heap-level embedding of `getAllMessages` (server.js line 40):
`[...this.messages]` allocates a fresh array object holding the same
record addresses as the store's array, and returns its (fresh)
address. -/
def getAllMessagesW (w : World) : World × Nat :=
  ({ w with arrays := w.arrays ++ [w.arrays.getD w.storeArr []] },
    w.arrays.length)

/-- In-place mutation of the array object at address `a` (as
`messages.reverse()` does at server.js line 243, or any other in-place
array operation `f` a caller applies to the returned copy). -/
def mutateArray (w : World) (a : Nat) (f : List Nat → List Nat) : World :=
  { w with arrays := w.arrays.set a (f (w.arrays.getD a [])) }

/-- In-place mutation of the `content` field of the record object at
address `r` (what a caller does when it mutates an element of the list
returned by `getAllMessages`). -/
def setRecContent (w : World) (r : Nat) (c : String) : World :=
  { w with recs := w.recs.set r { w.recs.getD r ⟨"", "", ""⟩ with content := c } }

/-- The records produced by the concrete 21-add scenario of the spec:
contents `m0` .. `m20`, with distinct ids. -/
def recs21 : List MessageRecord :=
  (List.range 21).map fun i => ⟨"", "m" ++ toString i, "i" ++ toString i⟩

/-- One store operation cannot push the store above capacity. -/
theorem length_applyOp_le (msgs : List MessageRecord) (op : StoreOp)
    (h : msgs.length ≤ MAX_MESSAGES) :
    (applyOp msgs op).length ≤ MAX_MESSAGES := by
  cases op with
  | add ts idv c =>
    simp only [applyOp, addMessage]
    split
    · simp only [List.length_append, List.length_tail, List.length_cons,
        List.length_nil]
      simp only [MAX_MESSAGES] at *
      omega
    · simp only [List.length_append, List.length_cons, List.length_nil]
      simp only [MAX_MESSAGES] at *
      omega
  | list => exact h
  | clear => simp [applyOp, clearStore]

/-- C1: starting from the empty store, after any sequence of add, list
and clear operations the store holds at most `MAX_MESSAGES` (= 20)
records, so `len(list()) <= CAPACITY` after every operation. -/
theorem capacity_invariant (ops : List StoreOp) :
    (getAllMessages (runOps ops)).length ≤ MAX_MESSAGES := by
  suffices h : ∀ msgs : List MessageRecord, msgs.length ≤ MAX_MESSAGES →
      (ops.foldl applyOp msgs).length ≤ MAX_MESSAGES by
    exact h [] (by simp [MAX_MESSAGES])
  induction ops with
  | nil => intro msgs h; simpa using h
  | cons op rest ih =>
    intro msgs h
    exact ih _ (length_applyOp_le msgs op h)

/-- Running a sequence of adds from the empty store leaves exactly the
last `MAX_MESSAGES` of the added records, in insertion order. -/
theorem runAdds_eq_drop (rs : List MessageRecord) :
    runAdds rs = rs.drop (rs.length - MAX_MESSAGES) := by
  induction rs using List.reverseRecOn with
  | nil => rfl
  | append_singleton rs r ih =>
    rw [runAdds, List.foldl_append] at *
    rw [List.foldl_cons, List.foldl_nil] at *
    rw [ih]
    show (addMessage (rs.drop (rs.length - MAX_MESSAGES))
      r.timestamp r.id r.content).1 = _
    rw [addMessage]
    by_cases hL : MAX_MESSAGES ≤ rs.length
    · have hlen : (rs.drop (rs.length - MAX_MESSAGES)).length = MAX_MESSAGES := by
        rw [List.length_drop]; omega
      rw [if_pos (by rw [hlen])]
      rw [List.tail_drop]
      have h2 : rs.length - MAX_MESSAGES + 1 = rs.length + 1 - MAX_MESSAGES := by
        omega
      have h3 : rs.length + 1 - MAX_MESSAGES ≤ rs.length := by
        simp only [MAX_MESSAGES] at hL ⊢; omega
      rw [h2, ← List.drop_append_of_le_length h3]
      simp
    · have hdrop : rs.length - MAX_MESSAGES = 0 := by omega
      have hlen : (rs.drop (rs.length - MAX_MESSAGES)).length = rs.length := by
        rw [hdrop, List.drop_zero]
      rw [if_neg (by rw [hlen]; exact hL)]
      have h4 : (rs ++ [r]).length - MAX_MESSAGES = 0 := by
        simp only [List.length_append, List.length_cons, List.length_nil]
        omega
      rw [hdrop, List.drop_zero, h4, List.drop_zero]

/-- C2: after `MAX_MESSAGES + k` adds (k > 0) on the empty store,
`list()` returns exactly the records of the last `MAX_MESSAGES` adds in
insertion order, and none of the records of the first `k` adds
remain. -/
theorem fifo_eviction (rs : List MessageRecord) (k : Nat) (hk : 0 < k)
    (hlen : rs.length = MAX_MESSAGES + k) (hnd : rs.Nodup) :
    getAllMessages (runAdds rs) = rs.drop k ∧
      ∀ r ∈ rs.take k, r ∉ getAllMessages (runAdds rs) := by
  have h1 : getAllMessages (runAdds rs) = rs.drop k := by
    rw [getAllMessages, runAdds_eq_drop, hlen]
    congr 1
    omega
  refine ⟨h1, ?_⟩
  rw [h1]
  intro r hr hr'
  exact List.disjoint_take_drop hnd (le_refl k) hr hr'

/-- Witness for C2: the concrete 21-message scenario — adding records
`m0` .. `m20` leaves exactly the records `m1` .. `m20`, i.e. everything
but the first add. -/
theorem fifo_eviction_witness :
    (0 < 1 ∧ recs21.length = MAX_MESSAGES + 1 ∧ recs21.Nodup) ∧
      (getAllMessages (runAdds recs21) = recs21.drop 1 ∧
        ∀ r ∈ recs21.take 1, r ∉ getAllMessages (runAdds recs21)) :=
  ⟨⟨by decide, by decide, by decide⟩,
    fifo_eviction recs21 1 (by decide) (by decide) (by decide)⟩

/-- Any character of the output of one replacement pass comes either
from the replacement text or unchanged from the input (and then differs
from the replaced character). -/
theorem mem_replaceChar {x c : Char} {repl : List Char} :
    ∀ {s : List Char}, x ∈ replaceChar c repl s →
      x ∈ repl ∨ (x ∈ s ∧ x ≠ c)
  | [], h => by simp [replaceChar] at h
  | y :: ys, h => by
    rw [replaceChar] at h
    rcases List.mem_append.1 h with h1 | h2
    · by_cases hy : y = c
      · rw [if_pos hy] at h1
        exact .inl h1
      · rw [if_neg hy] at h1
        rcases List.mem_singleton.1 h1 with rfl
        exact .inr ⟨List.mem_cons_self _ _, hy⟩
    · rcases mem_replaceChar h2 with h | ⟨hs, hne⟩
      · exact .inl h
      · exact .inr ⟨List.mem_cons_of_mem _ hs, hne⟩

/-- No literal `<` survives sanitization. -/
theorem lt_not_mem_sanitizeChars (s : List Char) :
    '<' ∉ sanitizeChars s := by
  intro h
  rw [sanitizeChars] at h
  rcases mem_replaceChar h with h | ⟨h, _⟩
  · exact absurd h (by decide)
  rcases mem_replaceChar h with h | ⟨h, _⟩
  · exact absurd h (by decide)
  rcases mem_replaceChar h with h | ⟨h, _⟩
  · exact absurd h (by decide)
  rcases mem_replaceChar h with h | ⟨h, _⟩
  · exact absurd h (by decide)
  rcases mem_replaceChar h with h | ⟨h, _⟩
  · exact absurd h (by decide)
  rcases mem_replaceChar h with h | ⟨_, hne⟩
  · exact absurd h (by decide)
  · exact hne rfl

/-- No literal `>` survives sanitization. -/
theorem gt_not_mem_sanitizeChars (s : List Char) :
    '>' ∉ sanitizeChars s := by
  intro h
  rw [sanitizeChars] at h
  rcases mem_replaceChar h with h | ⟨h, _⟩
  · exact absurd h (by decide)
  rcases mem_replaceChar h with h | ⟨h, _⟩
  · exact absurd h (by decide)
  rcases mem_replaceChar h with h | ⟨h, _⟩
  · exact absurd h (by decide)
  rcases mem_replaceChar h with h | ⟨h, _⟩
  · exact absurd h (by decide)
  rcases mem_replaceChar h with h | ⟨_, hne⟩
  · exact absurd h (by decide)
  · exact hne rfl

/-- C3 counterexample: `sanitizeInput` is not the single-pass
substitution the claim describes.  The final `;` replacement rescans the
output of the earlier passes, so the escape sequences emitted for `<`
and `>` are themselves re-escaped: `sanitizeInput "<script>"` yields
`&lt&#59;script&gt&#59;`, not the intact single-pass form
`&lt;script&gt;`. -/
theorem sanitize_not_single_pass :
    sanitizeInput "<script>" ≠ sanitizeSpec "<script>" ∧
      sanitizeInput "<script>" = "&lt&#59;script&gt&#59;" ∧
      sanitizeSpec "<script>" = "&lt;script&gt;" :=
  ⟨by decide, by decide, by decide⟩

/-- C3 (amended): `sanitizeInput` applies the six substitutions as
sequential passes, each rescanning the previous pass's output, so the
`;` inside earlier escape sequences is itself re-escaped by the final
pass; still no literal `<` or `>` remains in any output, and
`sanitizeInput "<script>"` = `&lt&#59;script&gt&#59;`. -/
theorem sanitize_sequential_passes (s : String) :
    ('<' ∉ (sanitizeInput s).data ∧ '>' ∉ (sanitizeInput s).data) ∧
      sanitizeInput "<script>" = "&lt&#59;script&gt&#59;" :=
  ⟨⟨lt_not_mem_sanitizeChars s.data, gt_not_mem_sanitizeChars s.data⟩,
    by decide⟩

/-- A replacement pass leaves a string free of the replaced character
unchanged. -/
theorem replaceChar_of_not_mem {c : Char} (repl : List Char) :
    ∀ s : List Char, c ∉ s → replaceChar c repl s = s
  | [], _ => rfl
  | y :: ys, h => by
    rw [List.mem_cons, not_or] at h
    rw [replaceChar, if_neg (fun hyc => h.1 hyc.symm),
      List.singleton_append, replaceChar_of_not_mem repl ys h.2]

/-- C4: sanitization is the identity on strings containing none of the
six dangerous characters. -/
theorem sanitize_id_on_safe (s : String)
    (h : ∀ c ∈ s.data, c ∉ ['<', '>', '"', '\'', '$', ';']) :
    sanitizeInput s = s := by
  have h1 : '<' ∉ s.data := fun hm => h '<' hm (by decide)
  have h2 : '>' ∉ s.data := fun hm => h '>' hm (by decide)
  have h3 : '"' ∉ s.data := fun hm => h '"' hm (by decide)
  have h4 : '\'' ∉ s.data := fun hm => h '\'' hm (by decide)
  have h5 : '$' ∉ s.data := fun hm => h '$' hm (by decide)
  have h6 : ';' ∉ s.data := fun hm => h ';' hm (by decide)
  show (⟨sanitizeChars s.data⟩ : String) = s
  rw [sanitizeChars, replaceChar_of_not_mem _ _ h1,
    replaceChar_of_not_mem _ _ h2, replaceChar_of_not_mem _ _ h3,
    replaceChar_of_not_mem _ _ h4, replaceChar_of_not_mem _ _ h5,
    replaceChar_of_not_mem _ _ h6]

/-- Witness for C4 at the concrete safe string `hello world`. -/
theorem sanitize_id_on_safe_witness :
    (∀ c ∈ ("hello world" : String).data,
        c ∉ ['<', '>', '"', '\'', '$', ';']) ∧
      sanitizeInput "hello world" = "hello world" :=
  ⟨by decide, sanitize_id_on_safe "hello world" (by decide)⟩

/-- C5: the gate passes exactly the credential pair
`admin`/`lifelink`; every other pair and the absence of a credential
yield the 401 re-authentication challenge on both `GET /read_messages`
and `POST /clear_messages`, while `POST /message` answers 200 with no
credential at all. -/
theorem auth_gate (cred : Option (String × String))
    (msgs : List MessageRecord) (bm xff : Option String)
    (ra : String) (aj : Bool) (ts idv : String) :
    (messageAuth cred = true ↔ cred = some ("admin", "lifelink")) ∧
      (readMessagesRoute msgs ⟨cred, bm, xff, ra, aj⟩ = unauthorizedResponse ↔
        cred ≠ some ("admin", "lifelink")) ∧
      ((clearMessagesRoute msgs ⟨cred, bm, xff, ra, aj⟩).2.2 =
          unauthorizedResponse ↔
        cred ≠ some ("admin", "lifelink")) ∧
      (postMessage msgs ⟨none, bm, xff, ra, aj⟩ ts idv none).2.2.status = 200 := by
  have hauth : messageAuth cred = true ↔ cred = some ("admin", "lifelink") := by
    cases cred with
    | none => simp [messageAuth]
    | some up =>
      obtain ⟨u, p⟩ := up
      simp only [messageAuth, authUsers, List.any_cons, List.any_nil,
        Bool.or_false, Bool.and_eq_true, decide_eq_true_eq,
        Option.some.injEq, Prod.mk.injEq]
      constructor
      · rintro ⟨h1, h2⟩
        exact ⟨h1.symm, h2.symm⟩
      · rintro ⟨h1, h2⟩
        exact ⟨h1.symm, h2.symm⟩
  refine ⟨hauth, ?_, ?_, rfl⟩
  · by_cases hc : cred = some ("admin", "lifelink")
    · subst hc
      have hstat : (readMessagesRoute msgs
          ⟨some ("admin", "lifelink"), bm, xff, ra, aj⟩).status = 200 := by
        cases aj <;> rfl
      refine iff_of_false ?_ (fun h => h rfl)
      intro heq
      have h1 := congrArg Response.status heq
      rw [hstat] at h1
      exact absurd h1 (by decide)
    · have hb : messageAuth cred = false := by
        rcases h : messageAuth cred with _ | _
        · rfl
        · exact absurd (hauth.1 h) hc
      refine iff_of_true ?_ hc
      unfold readMessagesRoute
      rw [hb]
      rfl
  · by_cases hc : cred = some ("admin", "lifelink")
    · subst hc
      have hstat : (clearMessagesRoute msgs
          ⟨some ("admin", "lifelink"), bm, xff, ra, aj⟩).2.2.status = 200 := rfl
      refine iff_of_false ?_ (fun h => h rfl)
      intro heq
      have h1 := congrArg Response.status heq
      rw [hstat] at h1
      exact absurd h1 (by decide)
    · have hb : messageAuth cred = false := by
        rcases h : messageAuth cred with _ | _
        · rfl
        · exact absurd (hauth.1 h) hc
      refine iff_of_true ?_ hc
      unfold clearMessagesRoute
      rw [hb]
      rfl

/-- C6: when an internal failure with message `e` is raised during
intake, the catch block stores a record whose content is the sanitized
error message prefixed `ERROR:`, logs that same sanitized entry, and
answers with the fixed generic 500 response — which is independent of
`e`, so no exception detail reaches the caller. -/
theorem intake_catch (msgs : List MessageRecord) (req : Request)
    (ts idv e : String) :
    (postMessage msgs req ts idv (some e)).2.2 =
        ⟨500, none, .statusMsg "error" "Failed to process message"⟩ ∧
      (postMessage msgs req ts idv (some e)).1.getLast? =
        some ⟨ts, "ERROR: " ++ sanitizeInput e, idv⟩ ∧
      (postMessage msgs req ts idv (some e)).2.1 =
        ["ERROR: " ++ sanitizeInput e] ∧
      ∀ e' : String, (postMessage msgs req ts idv (some e')).2.2 =
        (postMessage msgs req ts idv (some e)).2.2 := by
  refine ⟨rfl, ?_, rfl, fun e' => rfl⟩
  have hst : (postMessage msgs req ts idv (some e)).1 =
      (if MAX_MESSAGES ≤ msgs.length then msgs.tail else msgs) ++
        [⟨ts, "ERROR: " ++ sanitizeInput e, idv⟩] := rfl
  rw [hst, List.getLast?_concat]

/-- C7: `clear()` empties the store, clearing an empty store is a no-op
success, `clear()` followed by `list()` returns the empty sequence, and
an `add` after `clear()` behaves exactly as an `add` on a fresh store. -/
theorem clear_idempotent_reusable (msgs : List MessageRecord)
    (ts idv c : String) :
    clearStore (clearStore msgs) = clearStore msgs ∧
      clearStore [] = [] ∧
      getAllMessages (clearStore msgs) = [] ∧
      addMessage (clearStore msgs) ts idv c = addMessage [] ts idv c ∧
      clearResult.1 = true :=
  ⟨rfl, rfl, rfl, rfl, rfl⟩

/-- A one-record world used for the C8 counterexample and witness:
one record object at address 0, the store's array at address 0 holding
just that record. -/
def w0 : World :=
  ⟨[⟨"t", "a", "i"⟩], [[0]], 0⟩

/-- C8 counterexample: the copy `getAllMessages` returns is shallow.
In `w0`, the snapshot array holds the same record address 0 as the
store's array; mutating the content of that record object through the
snapshot changes what a subsequent `list()` observes. -/
theorem list_copy_is_shallow :
    (getAllMessagesW w0).1.arrays.getD (getAllMessagesW w0).2 [] = [0] ∧
      w0.arrays.getD w0.storeArr [] = [0] ∧
      listStore (setRecContent (getAllMessagesW w0).1 0 "b") ≠
        listStore (getAllMessagesW w0).1 := by
  refine ⟨by decide, by decide, by decide⟩

/-- C8 (amended): `getAllMessages` returns a fresh array object, so any
in-place mutation of the returned array itself (for example the
`messages.reverse()` at server.js line 243, modelled by an arbitrary
in-place transformation `f`) leaves the store's own state unchanged —
but the copy is shallow: the fresh array holds the very same record
addresses, and mutating one of those shared record objects does change
what a subsequent `list()` returns. -/
theorem list_copy_array_independent (w : World)
    (hw : w.storeArr < w.arrays.length) (f : List Nat → List Nat) :
    (getAllMessagesW w).2 ≠ w.storeArr ∧
      (getAllMessagesW w).1.arrays.getD (getAllMessagesW w).2 [] =
        w.arrays.getD w.storeArr [] ∧
      listStore (mutateArray (getAllMessagesW w).1 (getAllMessagesW w).2 f) =
        listStore w := by
  constructor
  · show w.arrays.length ≠ w.storeArr
    omega
  constructor
  · show (w.arrays ++ [w.arrays.getD w.storeArr []]).getD w.arrays.length [] =
      w.arrays.getD w.storeArr []
    rw [List.getD_eq_getElem?_getD, List.getElem?_concat_length]
    rfl
  · simp only [listStore, mutateArray, getAllMessagesW]
    congr 1
    rw [List.getD_eq_getElem?_getD, List.getD_eq_getElem?_getD,
      List.getElem?_set_ne (by omega : w.arrays.length ≠ w.storeArr),
      List.getElem?_append, if_pos hw]

/-- Witness for C8 (amended) at the concrete world `w0`, with the
in-place array mutation instantiated to `reverse`. -/
theorem list_copy_array_independent_witness :
    w0.storeArr < w0.arrays.length ∧
      ((getAllMessagesW w0).2 ≠ w0.storeArr ∧
        (getAllMessagesW w0).1.arrays.getD (getAllMessagesW w0).2 [] =
          w0.arrays.getD w0.storeArr [] ∧
        listStore (mutateArray (getAllMessagesW w0).1 (getAllMessagesW w0).2
          List.reverse) = listStore w0) :=
  ⟨by decide, list_copy_array_independent w0 (by decide) List.reverse⟩

/-- C9: a `POST /message` with no `message` field stores a record whose
content embeds the placeholder `No message provided` — unchanged by
sanitization — in the combined log-line form
`IP: ip | Message: message` with the client ip sanitized. -/
theorem placeholder_on_absent (msgs : List MessageRecord)
    (cred : Option (String × String)) (xff : Option String)
    (ra ts idv : String) (aj : Bool) :
    (postMessage msgs ⟨cred, none, xff, ra, aj⟩ ts idv none).1.getLast? =
        some ⟨ts, "IP: " ++ sanitizeInput (jsOrString xff ra) ++
          " | Message: No message provided", idv⟩ ∧
      sanitizeInput "No message provided" = "No message provided" := by
  refine ⟨?_, by decide⟩
  have hst : (postMessage msgs ⟨cred, none, xff, ra, aj⟩ ts idv none).1 =
      (if MAX_MESSAGES ≤ msgs.length then msgs.tail else msgs) ++
        [⟨ts, "IP: " ++ sanitizeInput (jsOrString xff ra) ++ " | Message: " ++
          sanitizeInput "No message provided", idv⟩] := rfl
  rw [hst, List.getLast?_concat]
  have hmsg : sanitizeInput "No message provided" = "No message provided" := by
    decide
  rw [hmsg, String.append_assoc]
  rfl

/-- C10 (implicit): the `||` default in `rawMessage` fires on every
falsy value, so a request whose `message` field is the empty string is
handled exactly like a request with no `message` field at all and its
stored content derives from the placeholder, not from `""`. -/
theorem placeholder_on_empty_string (msgs : List MessageRecord)
    (cred : Option (String × String)) (xff : Option String)
    (ra ts idv : String) (aj : Bool) :
    postMessage msgs ⟨cred, some "", xff, ra, aj⟩ ts idv none =
        postMessage msgs ⟨cred, none, xff, ra, aj⟩ ts idv none ∧
      (postMessage msgs ⟨cred, some "", xff, ra, aj⟩ ts idv none).1.getLast? =
        some ⟨ts, "IP: " ++ sanitizeInput (jsOrString xff ra) ++
          " | Message: No message provided", idv⟩ := by
  constructor
  · rfl
  · have hst : (postMessage msgs ⟨cred, some "", xff, ra, aj⟩ ts idv none).1 =
        (if MAX_MESSAGES ≤ msgs.length then msgs.tail else msgs) ++
          [⟨ts, "IP: " ++ sanitizeInput (jsOrString xff ra) ++ " | Message: " ++
            sanitizeInput "No message provided", idv⟩] := rfl
    rw [hst, List.getLast?_concat]
    have hmsg : sanitizeInput "No message provided" = "No message provided" := by
      decide
    rw [hmsg, String.append_assoc]
    rfl

end FunctionServer
